import Mathlib

/-!
Shallow embedding of the Atlas routing-engine core: the segmented
performance analyzer, the health monitor state machine, the routing
engine with its optimization-mode scoring and cost-conscious override,
and the fallback sequencer.  Rates and scores are modelled as rationals;
the JavaScript `Map` objects are modelled as insertion-ordered
association lists; the stable `Array.prototype.sort` is modelled by
insertion sort with the comparator's total preorder.
-/

namespace Atlas

/-- Transaction outcome (src/models/types.ts). -/
inductive Outcome where
  | approved
  | declined
  | error
  | timeout
deriving DecidableEq, Repr

/-- Acquirer health status (src/models/types.ts). -/
inductive Status where
  | healthy
  | degraded
  | down
deriving DecidableEq, Repr

/-- Optimization mode (src/models/types.ts). -/
inductive Mode where
  | maximize_approvals
  | balanced
  | cost_conscious
deriving DecidableEq, Repr

/-- Historical transaction record (src/models/types.ts). -/
structure Transaction where
  id : String
  timestamp : String
  acquirer : String
  amount : ℚ
  currency : String
  cardType : String
  country : String
  outcome : Outcome
  takeRate : ℚ
  processingTimeMs : ℚ
deriving DecidableEq

/-- Incoming payment request (src/models/types.ts). -/
structure PaymentRequest where
  amount : ℚ
  currency : String
  cardType : String
  country : String
  optimizationMode : Option Mode
deriving DecidableEq

/-- Static acquirer configuration entry (src/models/types.ts). -/
structure AcquirerConfig where
  name : String
  takeRate : ℚ
  enabled : Bool
  description : String
deriving DecidableEq

/-- The fixed configured acquirer set (src/config/acquirers.ts). -/
def acquirers : List AcquirerConfig :=
  [⟨"Acquirer A", 28/10, true,
    "General purpose acquirer with balanced performance across all segments"⟩,
   ⟨"Acquirer B", 31/10, true,
    "Strong performance for MX credit card transactions, higher take rate"⟩,
   ⟨"Acquirer C", 21/10, true,
    "Cheapest acquirer, weaker approval rates on high-value transactions"⟩]

/-- Association-list lookup mirroring JavaScript `Map.get`. -/
def lookupEntry {β : Type} (l : List (String × β)) (k : String) : Option β :=
  match l with
  | [] => none
  | (k', v) :: rest => if k' = k then some v else lookupEntry rest k

/-- Association-list update mirroring JavaScript `Map.set`: an existing key
is updated in place (insertion order preserved), a new key is appended. -/
def setEntry {β : Type} (l : List (String × β)) (k : String) (v : β) :
    List (String × β) :=
  match l with
  | [] => [(k, v)]
  | (k', v') :: rest => if k' = k then (k, v) :: rest else (k', v') :: setEntry rest k v

/-! ## PerformanceAnalyzer (src/services/performance-analyzer.ts, blended variant) -/

/-- Per-segment counters. -/
structure SegmentStats where
  approved : ℕ
  total : ℕ
deriving DecidableEq

/-- The analyzer's segment index, keyed by the string keys the source builds. -/
structure PerformanceAnalyzer where
  segments : List (String × SegmentStats)
deriving DecidableEq

/-- Optional filters passed to `getApprovalRate`. -/
structure ApprovalFilters where
  currency : Option String
  cardType : Option String
  country : Option String
  amount : Option ℚ
deriving DecidableEq

/-- Result of `getApprovalRate` (src/models/types.ts `AcquirerPerformance`). -/
structure AcquirerPerformance where
  acquirer : String
  approvalRate : ℚ
  sampleSize : ℕ
  segment : String
deriving DecidableEq

/-- Fixed amount buckets: low (≤ 100), mid (≤ 500), high (> 500). -/
def getAmountRange (amount : ℚ) : String :=
  if amount ≤ 100 then "low" else if amount ≤ 500 then "mid" else "high"

def currencyKey (acquirer c : String) : String := acquirer ++ ":currency:" ++ c

def cardTypeKey (acquirer t : String) : String := acquirer ++ ":cardType:" ++ t

def countryKey (acquirer c : String) : String := acquirer ++ ":country:" ++ c

def amountRangeKey (acquirer r : String) : String := acquirer ++ ":amountRange:" ++ r

def combinedKey (acquirer c t : String) : String :=
  acquirer ++ ":currency:" ++ c ++ ":cardType:" ++ t

/-- One `addToSegment` call. -/
def addToSegment (a : PerformanceAnalyzer) (key : String) (approved : ℕ) :
    PerformanceAnalyzer :=
  let existing := (lookupEntry a.segments key).getD ⟨0, 0⟩
  ⟨setEntry a.segments key ⟨existing.approved + approved, existing.total + 1⟩⟩

/-- Index construction: each transaction feeds six buckets. -/
def loadAndCompute (txs : List Transaction) : PerformanceAnalyzer :=
  txs.foldl
    (fun a tx =>
      let isApproved := if tx.outcome = Outcome.approved then 1 else 0
      let amountRange := getAmountRange tx.amount
      let a := addToSegment a tx.acquirer isApproved
      let a := addToSegment a (currencyKey tx.acquirer tx.currency) isApproved
      let a := addToSegment a (cardTypeKey tx.acquirer tx.cardType) isApproved
      let a := addToSegment a (countryKey tx.acquirer tx.country) isApproved
      let a := addToSegment a (amountRangeKey tx.acquirer amountRange) isApproved
      addToSegment a (combinedKey tx.acquirer tx.currency tx.cardType) isApproved)
    ⟨[]⟩

/-- `getSegment`: `null` for a missing or empty bucket. -/
def getSegment (a : PerformanceAnalyzer) (key : String) : Option (ℚ × ℕ) :=
  match lookupEntry a.segments key with
  | none => none
  | some stats =>
      if stats.total = 0 then none
      else some ((stats.approved : ℚ) / (stats.total : ℚ), stats.total)

/-- A qualifying bucket collected by `getApprovalRate`, with its blend weight. -/
structure Candidate where
  rate : ℚ
  sampleSize : ℕ
  segment : String
  weight : ℚ
deriving DecidableEq

/-- A bucket contributes one candidate exactly when it exists and meets the
minimum-sample threshold of 5. -/
def segCandidate (a : PerformanceAnalyzer) (key label : String) (weight : ℚ) :
    List Candidate :=
  match getSegment a key with
  | none => []
  | some (rate, n) => if 5 ≤ n then [⟨rate, n, label, weight⟩] else []

/-- The candidate list built by `getApprovalRate`, in source push order:
combined (weight 4), currency, cardType, country, amountRange (weight 2),
baseline (weight 1). -/
def candidatesOf (a : PerformanceAnalyzer) (acquirer : String)
    (f : ApprovalFilters) : List Candidate :=
  (match f.currency, f.cardType with
   | some c, some t => segCandidate a (combinedKey acquirer c t) (c ++ "/" ++ t) 4
   | _, _ => []) ++
  (match f.currency with
   | some c => segCandidate a (currencyKey acquirer c) c 2
   | none => []) ++
  (match f.cardType with
   | some t => segCandidate a (cardTypeKey acquirer t) t 2
   | none => []) ++
  (match f.country with
   | some c => segCandidate a (countryKey acquirer c) c 2
   | none => []) ++
  (match f.amount with
   | some amt =>
       segCandidate a (amountRangeKey acquirer (getAmountRange amt))
         ("amount:" ++ getAmountRange amt) 2
   | none => []) ++
  segCandidate a acquirer "overall" 1

/-- `PerformanceAnalyzer.getApprovalRate`: no candidate → explicit no-data
result; one candidate → returned directly; two or more → weighted blend. -/
def getApprovalRate (a : PerformanceAnalyzer) (acquirer : String)
    (f : ApprovalFilters) : AcquirerPerformance :=
  let cs := candidatesOf a acquirer f
  if cs.length = 0 then ⟨acquirer, 0, 0, "none"⟩
  else if cs.length = 1 then
    let c := cs.headD ⟨0, 0, "", 1⟩
    ⟨acquirer, c.rate, c.sampleSize, c.segment⟩
  else
    let weightedSum := (cs.map (fun c => c.rate * c.weight)).sum
    let totalWeight := (cs.map (fun c => c.weight)).sum
    let totalSampleSize := (cs.map (fun c => c.sampleSize)).sum
    let labels := (cs.filter (fun c => c.segment ≠ "overall")).map (fun c => c.segment)
    ⟨acquirer, weightedSum / totalWeight, totalSampleSize,
     if 0 < labels.length then String.intercalate "+" labels else "overall"⟩

/-! ## HealthMonitor (src/services/health-monitor.ts) -/

/-- Window-derived rates. -/
structure Rates where
  successRate : ℚ
  errorRate : ℚ
  timeoutRate : ℚ
deriving DecidableEq

/-- Health metrics exposed by `getHealth` (src/models/types.ts). -/
structure HealthMetrics where
  successRate : ℚ
  errorRate : ℚ
  timeoutRate : ℚ
  totalProcessed : ℕ
deriving DecidableEq

/-- Health status record exposed by `getHealth` (src/models/types.ts). -/
structure HealthStatus where
  acquirer : String
  status : Status
  consecutiveFailures : ℕ
  metrics : HealthMetrics
  lastUpdated : String
deriving DecidableEq

/-- Per-acquirer mutable state. -/
structure AcquirerState where
  recentOutcomes : List Outcome
  consecutiveFailures : ℕ
  consecutiveSuccesses : ℕ
  status : Status
  lastUpdated : String
  totalProcessed : ℕ
deriving DecidableEq

/-- The monitor's per-acquirer state map. -/
structure HealthMonitor where
  state : List (String × AcquirerState)
deriving DecidableEq

def isFailure (o : Outcome) : Bool := o == Outcome.error || o == Outcome.timeout

def isSuccess (o : Outcome) : Bool := o == Outcome.approved || o == Outcome.declined

def defaultState (now : String) : AcquirerState :=
  ⟨[], 0, 0, Status.healthy, now, 0⟩

/-- `getOrCreateState`: returns the existing state, or lazily creates a
default healthy state for a never-seen acquirer (a state mutation). -/
def getOrCreateState (m : HealthMonitor) (acquirer now : String) :
    AcquirerState × HealthMonitor :=
  match lookupEntry m.state acquirer with
  | some s => (s, m)
  | none => (defaultState now, ⟨setEntry m.state acquirer (defaultState now)⟩)

/-- `computeRates`: an empty window reports success rate 1 and zero
error/timeout rates. -/
def computeRates (outcomes : List Outcome) : Rates :=
  if outcomes.length = 0 then ⟨1, 0, 0⟩
  else
    ⟨(outcomes.countP isSuccess : ℚ) / (outcomes.length : ℚ),
     (outcomes.countP (fun o => o == Outcome.error) : ℚ) / (outcomes.length : ℚ),
     (outcomes.countP (fun o => o == Outcome.timeout) : ℚ) / (outcomes.length : ℚ)⟩

/-- `updateStatus`: the hysteretic state machine, conditions evaluated in
source order; at most one transition per call. -/
def updateStatus (s : AcquirerState) : AcquirerState :=
  let rates := computeRates s.recentOutcomes
  let failRate := rates.errorRate + rates.timeoutRate
  match s.status with
  | Status.healthy =>
      if 5 ≤ s.consecutiveFailures then { s with status := Status.down }
      else if 3/10 < failRate then { s with status := Status.degraded }
      else s
  | Status.degraded =>
      if 5 ≤ s.consecutiveFailures ∨ 1/2 < failRate then { s with status := Status.down }
      else if 4/5 < rates.successRate ∧ s.consecutiveFailures = 0 then
        { s with status := Status.healthy }
      else s
  | Status.down =>
      if 3 ≤ s.consecutiveSuccesses then { s with status := Status.degraded }
      else s

/-- Window append with eviction of the oldest entry past 20. -/
def pushTrim (w : List Outcome) (o : Outcome) : List Outcome :=
  let w' := w ++ [o]
  if 20 < w'.length then w'.drop 1 else w'

/-- The per-acquirer state right after an outcome is appended and the
counters updated, before `updateStatus` runs. -/
def observedState (m : HealthMonitor) (acquirer : String) (o : Outcome)
    (now : String) : AcquirerState :=
  let s := (getOrCreateState m acquirer now).1
  let s1 := { s with recentOutcomes := pushTrim s.recentOutcomes o }
  let s2 :=
    if isFailure o then
      { s1 with consecutiveFailures := s1.consecutiveFailures + 1,
                consecutiveSuccesses := 0 }
    else if isSuccess o then
      { s1 with consecutiveSuccesses := s1.consecutiveSuccesses + 1,
                consecutiveFailures := 0 }
    else s1
  { s2 with totalProcessed := s2.totalProcessed + 1, lastUpdated := now }

/-- `recordOutcome`: window append, counter update, then status re-evaluation,
stored back into the state map. -/
def recordOutcome (m : HealthMonitor) (acquirer : String) (o : Outcome)
    (now : String) : HealthMonitor :=
  let m1 := (getOrCreateState m acquirer now).2
  ⟨setEntry m1.state acquirer (updateStatus (observedState m acquirer o now))⟩

/-- Rounding to four decimal places, as in the source's
`Math.round(x * 10000) / 10000`. -/
def round4 (q : ℚ) : ℚ := ((round (q * 10000) : ℤ) : ℚ) / 10000

/-- `getHealth`: returns the status view and (crucially) the possibly-grown
monitor, since `getOrCreateState` inserts default state for unseen names. -/
def getHealth (m : HealthMonitor) (acquirer now : String) :
    HealthStatus × HealthMonitor :=
  let r := getOrCreateState m acquirer now
  let s := r.1
  let rates := computeRates s.recentOutcomes
  ({ acquirer := acquirer
     status := s.status
     consecutiveFailures := s.consecutiveFailures
     metrics :=
       { successRate := round4 rates.successRate
         errorRate := round4 rates.errorRate
         timeoutRate := round4 rates.timeoutRate
         totalProcessed := s.totalProcessed }
     lastUpdated := s.lastUpdated }, r.2)

/-- `getAllHealth`: one `getHealth` per currently-known acquirer. -/
def getAllHealth (m : HealthMonitor) (now : String) :
    List (String × HealthStatus) × HealthMonitor :=
  (m.state.map (fun p => p.1)).foldl
    (fun acc k =>
      let r := getHealth acc.2 k now
      (acc.1 ++ [(k, r.1)], r.2))
    ([], m)

/-- `isAvailable`: true unless the acquirer is known and `down`. -/
def isAvailable (m : HealthMonitor) (acquirer : String) : Bool :=
  match lookupEntry m.state acquirer with
  | none => true
  | some s => s.status != Status.down

/-- The monitor's current status for an acquirer (default healthy), the
pure view behind `getHealth`/`isAvailable`. -/
def statusOf (m : HealthMonitor) (acquirer : String) : Status :=
  match lookupEntry m.state acquirer with
  | none => Status.healthy
  | some s => s.status

/-! ## RoutingEngine (src/services/routing-engine.ts, injected-provider variant) -/

/-- Per-acquirer score row (src/models/types.ts `AcquirerScore`). -/
structure AcquirerScore where
  acquirer : String
  totalScore : ℚ
  approvalRateScore : ℚ
  healthScore : ℚ
  costScore : ℚ
  approvalRate : ℚ
  healthStatus : Status
  takeRate : ℚ
deriving DecidableEq

/-- Fallback list entry (src/models/types.ts `FallbackEntry`). -/
structure FallbackEntry where
  acquirer : String
  expectedApprovalRate : ℚ
  reason : String
deriving DecidableEq

/-- Routing decision (src/models/types.ts `RoutingDecision`). -/
structure RoutingDecision where
  selectedAcquirer : String
  scores : List AcquirerScore
  justification : String
  optimizationMode : Mode
  fallbackSequence : List FallbackEntry
deriving DecidableEq

/-- Weight triple for one optimization mode. -/
structure Weights where
  approval : ℚ
  health : ℚ
  cost : ℚ
deriving DecidableEq

/-- MODE_WEIGHTS table. -/
def modeWeights : Mode → Weights
  | Mode.maximize_approvals => ⟨80/100, 15/100, 5/100⟩
  | Mode.balanced => ⟨60/100, 25/100, 15/100⟩
  | Mode.cost_conscious => ⟨40/100, 20/100, 40/100⟩

/-- HEALTH_SCORE_MAP. -/
def healthScoreOf : Status → ℚ
  | Status.healthy => 1
  | Status.degraded => 3/10
  | Status.down => 0

/-- Replacement of the first occurrence of `pat` (JavaScript
`String.prototype.replace` with a string pattern replaces only the first). -/
def replaceFirstAux (pat rep : List Char) : List Char → List Char
  | [] => []
  | c :: rest =>
      if pat.isPrefixOf (c :: rest) then rep ++ (c :: rest).drop pat.length
      else c :: replaceFirstAux pat rep rest

/-- The source's short-name derivation (`name.replace('Acquirer ', '')`). -/
def shortNameOf (n : String) : String :=
  ⟨replaceFirstAux "Acquirer ".data "".data n.data⟩

/-- The filters a routing request induces. -/
def filtersOf (req : PaymentRequest) : ApprovalFilters :=
  ⟨some req.currency, some req.cardType, some req.country, some req.amount⟩

/-- `resolvePerformance`: query both the configured full name and the short
historical name and keep whichever answer carries strictly more samples. -/
def resolvePerformance (a : PerformanceAnalyzer) (acquirerName : String)
    (f : ApprovalFilters) : AcquirerPerformance :=
  let perfFull := getApprovalRate a acquirerName f
  let perfShort := getApprovalRate a (shortNameOf acquirerName) f
  if perfFull.sampleSize < perfShort.sampleSize then perfShort else perfFull

/-- `Math.max` over a list of take rates (the configured list is nonempty). -/
def maxTakeRateOf (l : List ℚ) : ℚ :=
  match l with
  | [] => 0
  | x :: xs => xs.foldl max x

/-- The score row the engine builds for one eligible acquirer. -/
def scoreOf (a : PerformanceAnalyzer) (hp : String → HealthStatus)
    (req : PaymentRequest) (acq : AcquirerConfig) : AcquirerScore :=
  let mode := req.optimizationMode.getD Mode.balanced
  let w := modeWeights mode
  let maxTakeRate := maxTakeRateOf (acquirers.map (fun c => c.takeRate))
  let bestPerf := resolvePerformance a acq.name (filtersOf req)
  let healthStatus := (hp acq.name).status
  let approvalRateScore := bestPerf.approvalRate
  let healthScore := healthScoreOf healthStatus
  let costScore := if 0 < maxTakeRate then 1 - acq.takeRate / maxTakeRate else 0
  { acquirer := acq.name
    totalScore := w.approval * approvalRateScore + w.health * healthScore +
      w.cost * costScore
    approvalRateScore := approvalRateScore
    healthScore := healthScore
    costScore := costScore
    approvalRate := bestPerf.approvalRate
    healthStatus := healthStatus
    takeRate := acq.takeRate }

/-- The engine's eligibility filter and scoring loop: disabled acquirers and
acquirers whose current status is `down` are skipped before scoring. -/
def eligibleScores (a : PerformanceAnalyzer) (hp : String → HealthStatus)
    (req : PaymentRequest) : List AcquirerScore :=
  acquirers.filterMap (fun acq =>
    if acq.enabled = true then
      if (hp acq.name).status = Status.down then none
      else some (scoreOf a hp req acq)
    else none)

/-- Comparator preorder of `scores.sort((a, b) => b.totalScore - a.totalScore)`. -/
def leTotalDesc (x y : AcquirerScore) : Prop := y.totalScore ≤ x.totalScore

instance : DecidableRel leTotalDesc :=
  fun x y => inferInstanceAs (Decidable (y.totalScore ≤ x.totalScore))

instance : IsTotal AcquirerScore leTotalDesc :=
  ⟨fun x y => le_total y.totalScore x.totalScore⟩

instance : IsTrans AcquirerScore leTotalDesc :=
  ⟨fun _ _ _ h h' => le_trans h' h⟩

/-- Comparator preorder of `sort((a, b) => a.takeRate - b.takeRate)`. -/
def leTakeAsc (x y : AcquirerScore) : Prop := x.takeRate ≤ y.takeRate

instance : DecidableRel leTakeAsc :=
  fun x y => inferInstanceAs (Decidable (x.takeRate ≤ y.takeRate))

instance : IsTotal AcquirerScore leTakeAsc :=
  ⟨fun x y => le_total x.takeRate y.takeRate⟩

instance : IsTrans AcquirerScore leTakeAsc :=
  ⟨fun _ _ _ h h' => le_trans h h'⟩

/-- Comparator preorder of `sort((a, b) => b.approvalRate - a.approvalRate)`. -/
def leApprDesc (x y : AcquirerScore) : Prop := y.approvalRate ≤ x.approvalRate

instance : DecidableRel leApprDesc :=
  fun x y => inferInstanceAs (Decidable (y.approvalRate ≤ x.approvalRate))

instance : IsTotal AcquirerScore leApprDesc :=
  ⟨fun x y => le_total y.approvalRate x.approvalRate⟩

instance : IsTrans AcquirerScore leApprDesc :=
  ⟨fun _ _ _ h h' => le_trans h' h⟩

/-- Placeholder used only for `headD` on lists the guards keep nonempty. -/
def dummyScore : AcquirerScore := ⟨"", 0, 0, 0, 0, 0, Status.healthy, 0⟩

/-- The eligible scores sorted by total score descending (the state of the
`scores` array right after the engine's sort). -/
def decisionScores (a : PerformanceAnalyzer) (hp : String → HealthStatus)
    (req : PaymentRequest) : List AcquirerScore :=
  List.insertionSort leTotalDesc (eligibleScores a hp req)

/-- `[...scores].sort((a, b) => a.takeRate - b.takeRate)[0]`. -/
def cheapestOf (l : List AcquirerScore) : AcquirerScore :=
  (List.insertionSort leTakeAsc l).headD dummyScore

/-- The override's candidate pool: healthy acquirers when any exist, else
every eligible acquirer. -/
def approvalPool (l : List AcquirerScore) : List AcquirerScore :=
  let healthyScores := l.filter (fun s => s.healthStatus == Status.healthy)
  if healthyScores.isEmpty then l else healthyScores

/-- Head of the pool sorted by approval rate descending. -/
def bestApprovalOf (l : List AcquirerScore) : AcquirerScore :=
  (List.insertionSort leApprDesc (approvalPool l)).headD dummyScore

/-- The cost-conscious override condition: the best-approval candidate is a
different acquirer than the cheapest one and beats it by more than 5
percentage points. -/
def overrideFires (l : List AcquirerScore) : Prop :=
  (cheapestOf l).acquirer ≠ (bestApprovalOf l).acquirer ∧
    1/20 < (bestApprovalOf l).approvalRate - (cheapestOf l).approvalRate

instance (l : List AcquirerScore) : Decidable (overrideFires l) := by
  unfold overrideFires
  exact instDecidableAnd

/-- `(x).toFixed(0)` on a percentage. -/
def pct (q : ℚ) : String := toString (round (q * 100) : ℤ)

def modeName : Mode → String
  | Mode.maximize_approvals => "maximize_approvals"
  | Mode.balanced => "balanced"
  | Mode.cost_conscious => "cost_conscious"

/-- The engine's justification line. -/
def mkJustification (selected : AcquirerScore) (scoresList : List AcquirerScore)
    (req : PaymentRequest) (mode : Mode) : String :=
  let others := String.intercalate " and "
    ((scoresList.filter (fun s => s.acquirer ≠ selected.acquirer)).map
      (fun s => pct s.approvalRate ++ "% (" ++ shortNameOf s.acquirer ++ ")"))
  "Route to " ++ selected.acquirer ++ ": " ++ pct selected.approvalRate ++
    "% approval for " ++ req.currency ++ " " ++ req.cardType ++ " cards vs " ++
    others ++ ". Mode: " ++ modeName mode

/-- The sentinel justification returned when no acquirer is eligible,
byte-for-byte as the source file stores it (including its mis-encoded
dash). -/
def noAcquirersMsg : String :=
  "No acquirers available â€” all are currently down. Retry after acquirer recovery."

/-- `RoutingEngine.route`.  In the cost-conscious branch with no healthy
candidate, the source's `(healthyScores.length > 0 ? healthyScores : scores)
.sort(...)` re-sorts the `scores` array itself in place by approval rate;
the returned score list reflects that mutation. -/
def route (a : PerformanceAnalyzer) (hp : String → HealthStatus)
    (req : PaymentRequest) : RoutingDecision :=
  let mode := req.optimizationMode.getD Mode.balanced
  let scores := eligibleScores a hp req
  if scores.isEmpty then
    { selectedAcquirer := "NONE", scores := [], justification := noAcquirersMsg,
      optimizationMode := mode, fallbackSequence := [] }
  else
    let sorted := decisionScores a hp req
    let selectedTop := sorted.headD dummyScore
    if mode = Mode.cost_conscious ∧ 2 ≤ scores.length then
      let healthyScores := sorted.filter (fun s => s.healthStatus == Status.healthy)
      let finalScores :=
        if healthyScores.isEmpty then List.insertionSort leApprDesc sorted else sorted
      let selected := if overrideFires sorted then bestApprovalOf sorted else selectedTop
      { selectedAcquirer := selected.acquirer, scores := finalScores,
        justification := mkJustification selected finalScores req mode,
        optimizationMode := mode, fallbackSequence := [] }
    else
      { selectedAcquirer := selectedTop.acquirer, scores := sorted,
        justification := mkJustification selectedTop sorted req mode,
        optimizationMode := mode, fallbackSequence := [] }

/-! ## FallbackSequencer (src/services/fallback-sequencer.ts) -/

/-- Comparator preorder of `candidates.sort((a, b) => b.approvalRate - a.approvalRate)`
on (acquirer, approvalRate) pairs. -/
def leRateDesc (x y : String × ℚ) : Prop := y.2 ≤ x.2

instance : DecidableRel leRateDesc := fun x y => inferInstanceAs (Decidable (y.2 ≤ x.2))

instance : IsTotal (String × ℚ) leRateDesc := ⟨fun x y => le_total y.2 x.2⟩

instance : IsTrans (String × ℚ) leRateDesc := ⟨fun _ _ _ h h' => le_trans h' h⟩

def secondaryEntry (c : String × ℚ) : FallbackEntry :=
  ⟨c.1, c.2,
   "Secondary: next highest approval rate (" ++ pct c.2 ++
     "%) for this transaction type"⟩

def tertiaryEntry (c : String × ℚ) : FallbackEntry :=
  ⟨c.1, c.2, "Tertiary: available with " ++ pct c.2 ++ "% approval rate"⟩

/-- Entry construction distinguishing the first (secondary) entry from the
subsequent (tertiary) ones. -/
def mkFallbackEntries : List (String × ℚ) → List FallbackEntry
  | [] => []
  | c :: rest => secondaryEntry c :: rest.map tertiaryEntry

/-- The sequencer's candidate loop: skip disabled acquirers, the primary and
unavailable acquirers, resolve the request-shape approval rate, keep those
at or above 0.50. -/
def fallbackCandidates (a : PerformanceAnalyzer) (avail : String → Bool)
    (req : PaymentRequest) (primaryAcquirer : String) : List (String × ℚ) :=
  acquirers.filterMap (fun acq =>
    if acq.enabled = true then
      if acq.name = primaryAcquirer then none
      else if avail acq.name then
        let best := resolvePerformance a acq.name (filtersOf req)
        if (1 : ℚ)/2 ≤ best.approvalRate then some (acq.name, best.approvalRate)
        else none
      else none
    else none)

/-- `FallbackSequencer.getSequence` against an availability checker (the
health monitor's `isAvailable` in production wiring). -/
def getSequence (a : PerformanceAnalyzer) (avail : String → Bool)
    (req : PaymentRequest) (primaryAcquirer : String) : List FallbackEntry :=
  let sortedCandidates :=
    List.insertionSort leRateDesc (fallbackCandidates a avail req primaryAcquirer)
  mkFallbackEntries (sortedCandidates.take 3)

/-! ## Specification-side reference definitions

These follow the spec's wording (§4.1 bucket thresholds, §4.2 transition
table) rather than the code, for refinement statements. -/

/-- The §4.2 transition table, read directly from the spec: rows evaluated
in the listed priority order, window rates taken over the current (≤ 20)
outcome window. -/
def specNextStatus (st : Status) (consecFailures consecSuccesses : ℕ)
    (window : List Outcome) : Status :=
  let er := (window.countP (fun o => o == Outcome.error) : ℚ) / (window.length : ℚ)
  let tr := (window.countP (fun o => o == Outcome.timeout) : ℚ) / (window.length : ℚ)
  let sr := (window.countP (fun o => o == Outcome.approved || o == Outcome.declined) : ℚ) /
    (window.length : ℚ)
  match st with
  | Status.healthy =>
      if 5 ≤ consecFailures then Status.down
      else if 3/10 < er + tr then Status.degraded
      else Status.healthy
  | Status.degraded =>
      if 5 ≤ consecFailures ∨ 1/2 < er + tr then Status.down
      else if 4/5 < sr ∧ consecFailures = 0 then Status.healthy
      else Status.degraded
  | Status.down =>
      if 3 ≤ consecSuccesses then Status.degraded
      else Status.down

/-- Total observation count of a segment bucket (0 when absent). -/
def bucketTotal (a : PerformanceAnalyzer) (key : String) : ℕ :=
  match lookupEntry a.segments key with
  | none => 0
  | some stats => stats.total

/-- Whether the combined currency×cardType bucket meets the threshold of 5. -/
def combinedQualifiesB (a : PerformanceAnalyzer) (acquirer : String)
    (f : ApprovalFilters) : Bool :=
  match f.currency, f.cardType with
  | some c, some t => decide (5 ≤ bucketTotal a (combinedKey acquirer c t))
  | _, _ => false

def currencyQualifiesB (a : PerformanceAnalyzer) (acquirer : String)
    (f : ApprovalFilters) : Bool :=
  match f.currency with
  | some c => decide (5 ≤ bucketTotal a (currencyKey acquirer c))
  | none => false

def cardTypeQualifiesB (a : PerformanceAnalyzer) (acquirer : String)
    (f : ApprovalFilters) : Bool :=
  match f.cardType with
  | some t => decide (5 ≤ bucketTotal a (cardTypeKey acquirer t))
  | none => false

def countryQualifiesB (a : PerformanceAnalyzer) (acquirer : String)
    (f : ApprovalFilters) : Bool :=
  match f.country with
  | some c => decide (5 ≤ bucketTotal a (countryKey acquirer c))
  | none => false

def amountRangeQualifiesB (a : PerformanceAnalyzer) (acquirer : String)
    (f : ApprovalFilters) : Bool :=
  match f.amount with
  | some amt => decide (5 ≤ bucketTotal a (amountRangeKey acquirer (getAmountRange amt)))
  | none => false

/-- Whether some single-dimension bucket meets the threshold of 5. -/
def singleDimQualifiesB (a : PerformanceAnalyzer) (acquirer : String)
    (f : ApprovalFilters) : Bool :=
  currencyQualifiesB a acquirer f || cardTypeQualifiesB a acquirer f ||
    countryQualifiesB a acquirer f || amountRangeQualifiesB a acquirer f

/-- Whether the acquirer-level baseline bucket meets the threshold of 5. -/
def baselineQualifiesB (a : PerformanceAnalyzer) (acquirer : String) : Bool :=
  decide (5 ≤ bucketTotal a acquirer)

/-- Whether any applicable bucket, at any level, meets the threshold of 5. -/
def someBucketQualifiesB (a : PerformanceAnalyzer) (acquirer : String)
    (f : ApprovalFilters) : Bool :=
  combinedQualifiesB a acquirer f || singleDimQualifiesB a acquirer f ||
    baselineQualifiesB a acquirer

/-! ## Concrete instances for witnesses and counterexamples -/

def emptyAnalyzer : PerformanceAnalyzer := ⟨[]⟩

def emptyMonitor : HealthMonitor := ⟨[]⟩

/-- A transaction of the fixed USD/credit/US, amount-200 shape. -/
def mkTx (acq : String) (o : Outcome) : Transaction :=
  ⟨"tx", "2024-01-01", acq, 200, "USD", "credit", "US", o, 0, 0⟩

/-- History where short-name acquirer B approves 9/10 and C approves 4/5. -/
def analyzerFire : PerformanceAnalyzer :=
  loadAndCompute
    (List.replicate 9 (mkTx "B" Outcome.approved) ++
     List.replicate 1 (mkTx "B" Outcome.declined) ++
     List.replicate 8 (mkTx "C" Outcome.approved) ++
     List.replicate 2 (mkTx "C" Outcome.declined))

/-- History where short-name acquirer B approves 9/10 and C approves 17/20
(a gap of exactly 0.05, so the override must not fire). -/
def analyzerClose : PerformanceAnalyzer :=
  loadAndCompute
    (List.replicate 9 (mkTx "B" Outcome.approved) ++
     List.replicate 1 (mkTx "B" Outcome.declined) ++
     List.replicate 17 (mkTx "C" Outcome.approved) ++
     List.replicate 3 (mkTx "C" Outcome.declined))

/-- Five country-US transactions for short-name acquirer A only. -/
def analyzerCountryOnly : PerformanceAnalyzer :=
  loadAndCompute
    (List.replicate 3 (mkTx "A" Outcome.approved) ++
     List.replicate 2 (mkTx "A" Outcome.declined))

/-- Filters supplying only a country, as a caller may. -/
def countryOnlyFilters : ApprovalFilters := ⟨none, none, some "US", none⟩

def mkHealthStatus (n : String) (st : Status) : HealthStatus :=
  ⟨n, st, 0, ⟨1, 0, 0, 0⟩, "t0"⟩

/-- Provider reporting every acquirer healthy. -/
def hpAllHealthy : String → HealthStatus := fun n => mkHealthStatus n Status.healthy

/-- Provider reporting every acquirer down. -/
def hpAllDown : String → HealthStatus := fun n => mkHealthStatus n Status.down

/-- Provider reporting only Acquirer B up. -/
def hpOnlyB : String → HealthStatus := fun n =>
  mkHealthStatus n (if n = "Acquirer B" then Status.healthy else Status.down)

/-- Monitor state after one `error` outcome per configured acquirer: each
window is `[error]` with fail rate 1 > 0.3, so each acquirer is degraded. -/
def monitorAllDegraded : HealthMonitor :=
  recordOutcome
    (recordOutcome
      (recordOutcome emptyMonitor "Acquirer A" Outcome.error "t1")
      "Acquirer B" Outcome.error "t2")
    "Acquirer C" Outcome.error "t3"

/-- The monitor-backed health provider view. -/
def hpOfMonitor (m : HealthMonitor) : String → HealthStatus := fun n =>
  (getHealth m n "tq").1

def reqBalanced : PaymentRequest := ⟨200, "USD", "credit", "US", none⟩

def reqCost : PaymentRequest :=
  ⟨200, "USD", "credit", "US", some Mode.cost_conscious⟩

/-! ## Theorems -/

set_option maxRecDepth 400000

unseal Rat.add Rat.mul Rat.inv Rat.sub Rat.ofScientific

theorem headD_mem {α : Type} (l : List α) (d : α) (h : l ≠ []) : l.headD d ∈ l := by
  cases l with
  | nil => exact absurd rfl h
  | cons x xs => exact List.mem_cons_self x xs

theorem mem_insertionSort_iff {α : Type} (r : α → α → Prop) [DecidableRel r]
    {x : α} {l : List α} : x ∈ List.insertionSort r l ↔ x ∈ l :=
  (List.perm_insertionSort r l).mem_iff

theorem insertionSort_ne_nil {α : Type} (r : α → α → Prop) [DecidableRel r]
    {l : List α} (h : l ≠ []) : List.insertionSort r l ≠ [] := by
  intro hnil
  have hlen := List.length_insertionSort r l
  rw [hnil] at hlen
  exact h (List.length_eq_zero.mp hlen.symm)

theorem headD_insertionSort_rel {α : Type} (r : α → α → Prop) [DecidableRel r]
    [IsTotal α r] [IsTrans α r] (l : List α) (d x : α) (hx : x ∈ l) :
    r ((List.insertionSort r l).headD d) x := by
  have hx' : x ∈ List.insertionSort r l := (List.perm_insertionSort r l).mem_iff.mpr hx
  have hs := List.sorted_insertionSort r l
  cases hsort : List.insertionSort r l with
  | nil => rw [hsort] at hx'; cases hx'
  | cons y ys =>
      rw [hsort] at hx' hs
      simp only [List.headD_cons]
      rcases List.mem_cons.mp hx' with rfl | hmem
      · exact (IsTotal.total x x).elim id id
      · exact List.rel_of_sorted_cons hs _ hmem

theorem lookupEntry_setEntry_self {β : Type} (l : List (String × β)) (k : String)
    (v : β) : lookupEntry (setEntry l k v) k = some v := by
  induction l with
  | nil => simp [setEntry, lookupEntry]
  | cons p rest ih =>
      by_cases h : p.1 = k
      · simp [setEntry, h, lookupEntry]
      · simpa [setEntry, h, lookupEntry] using ih

theorem setEntry_of_lookup_none {β : Type} (l : List (String × β)) (k : String)
    (v : β) (h : lookupEntry l k = none) : setEntry l k v = l ++ [(k, v)] := by
  induction l with
  | nil => simp [setEntry]
  | cons p rest ih =>
      by_cases hk : p.1 = k
      · rw [lookupEntry, if_pos hk] at h
        cases h
      · rw [lookupEntry, if_neg hk] at h
        simp [setEntry, hk, ih h]

theorem pushTrim_ne_nil (w : List Outcome) (o : Outcome) : pushTrim w o ≠ [] := by
  unfold pushTrim
  dsimp only
  split_ifs with h
  · intro hnil
    have hlen : (List.drop 1 (w ++ [o])).length = 0 := by rw [hnil]; rfl
    rw [List.length_drop] at hlen
    omega
  · simp

theorem computeRates_of_ne_nil {w : List Outcome} (h : w ≠ []) :
    computeRates w =
      ⟨(w.countP (fun o => o == Outcome.approved || o == Outcome.declined) : ℚ) /
         (w.length : ℚ),
       (w.countP (fun o => o == Outcome.error) : ℚ) / (w.length : ℚ),
       (w.countP (fun o => o == Outcome.timeout) : ℚ) / (w.length : ℚ)⟩ := by
  unfold computeRates
  rw [if_neg (by simpa using h)]
  rfl

/-- The status `updateStatus` computes coincides, on any state whose window
is nonempty, with the spec's §4.2 table applied to that state's counters and
window. -/
theorem updateStatus_status_eq_spec (s : AcquirerState)
    (h : s.recentOutcomes ≠ []) :
    (updateStatus s).status =
      specNextStatus s.status s.consecutiveFailures s.consecutiveSuccesses
        s.recentOutcomes := by
  unfold updateStatus specNextStatus
  rw [computeRates_of_ne_nil h]
  dsimp only
  cases hst : s.status <;> dsimp only <;> split_ifs <;> simp [hst]

theorem observedState_recentOutcomes (m : HealthMonitor) (acq : String)
    (o : Outcome) (now : String) :
    (observedState m acq o now).recentOutcomes =
      pushTrim ((getOrCreateState m acq now).1.recentOutcomes) o := by
  unfold observedState
  split_ifs <;> rfl

theorem observedState_status (m : HealthMonitor) (acq : String) (o : Outcome)
    (now : String) : (observedState m acq o now).status = statusOf m acq := by
  unfold observedState statusOf getOrCreateState
  cases lookupEntry m.state acq <;> split_ifs <;> rfl

/-- C6 — after every recorded outcome the stored state is exactly
`updateStatus` of the observed state, the from-status is the monitor's
previous status for that acquirer, and the resulting status is precisely the
spec's §4.2 transition table (priority order, at most one edge) applied to
the post-observation counters and window, so no other edge ever fires. -/
theorem recordOutcomeFollowsTable (m : HealthMonitor) (acq : String)
    (o : Outcome) (now : String) :
    lookupEntry (recordOutcome m acq o now).state acq =
      some (updateStatus (observedState m acq o now)) ∧
    (observedState m acq o now).status = statusOf m acq ∧
    (updateStatus (observedState m acq o now)).status =
      specNextStatus (observedState m acq o now).status
        (observedState m acq o now).consecutiveFailures
        (observedState m acq o now).consecutiveSuccesses
        (observedState m acq o now).recentOutcomes := by
  refine ⟨?_, observedState_status m acq o now, ?_⟩
  · unfold recordOutcome
    exact lookupEntry_setEntry_self _ _ _
  · apply updateStatus_status_eq_spec
    rw [observedState_recentOutcomes]
    exact pushTrim_ne_nil _ _

theorem round4_one : round4 1 = 1 := by decide

theorem round4_zero : round4 0 = 0 := by decide

/-- C9 (amended) — `getHealth` on a never-observed acquirer returns a default
healthy status whose error rate, timeout rate, consecutive-failure count and
total processed are 0, but whose success rate is 1 (the empty-window
convention of `computeRates`), stamped with the creation time. -/
theorem getHealthFreshDefault (m : HealthMonitor) (acq now : String)
    (h : lookupEntry m.state acq = none) :
    (getHealth m acq now).1 =
      ⟨acq, Status.healthy, 0, ⟨1, 0, 0, 0⟩, now⟩ := by
  unfold getHealth getOrCreateState
  rw [h]
  simp [defaultState, computeRates, round4_one, round4_zero]

/-- C9 (counterexample) — the claim says the success-rate metric of a fresh
acquirer is 0; it is in fact 1. -/
theorem getHealthFreshSuccessRate : (getHealth emptyMonitor "Acquirer A" "t0").1.metrics.successRate = 1 ∧
    (getHealth emptyMonitor "Acquirer A" "t0").1.metrics.successRate ≠ 0 := by
  constructor <;> decide

theorem getHealthFreshDefault_witness :
    (getHealth emptyMonitor "Acquirer A" "t0").1 =
      ⟨"Acquirer A", Status.healthy, 0, ⟨1, 0, 0, 0⟩, "t0"⟩ :=
  getHealthFreshDefault emptyMonitor "Acquirer A" "t0" rfl

theorem getAllHealth_foldl_fst {now : String} (ks : List String)
    (acc : List (String × HealthStatus)) (mm : HealthMonitor) :
    ((ks.foldl
        (fun acc k =>
          let r := getHealth acc.2 k now
          (acc.1 ++ [(k, r.1)], r.2))
        (acc, mm)).1.map (fun p => p.1)) = acc.map (fun p => p.1) ++ ks := by
  induction ks generalizing acc mm with
  | nil => simp
  | cons k rest ih =>
      rw [List.foldl_cons]
      rw [ih]
      simp

theorem getAllHealth_fst (m : HealthMonitor) (now : String) :
    ((getAllHealth m now).1.map (fun p => p.1)) = m.state.map (fun p => p.1) := by
  unfold getAllHealth
  rw [getAllHealth_foldl_fst]
  simp

/-- C10 — `getHealth` on a never-seen acquirer appends exactly one default
state entry for that name (all other entries untouched, in order), and a
subsequent `getAllHealth` lists that acquirer even though no outcome was
ever recorded: `getHealth` is not read-only on the monitor. -/
theorem getHealthInsertsDefault (m : HealthMonitor) (acq now now2 : String)
    (h : lookupEntry m.state acq = none) :
    (getHealth m acq now).2.state = m.state ++ [(acq, defaultState now)] ∧
    ((getAllHealth (getHealth m acq now).2 now2).1.map (fun p => p.1)) =
      m.state.map (fun p => p.1) ++ [acq] := by
  have hstate : (getHealth m acq now).2.state = m.state ++ [(acq, defaultState now)] := by
    unfold getHealth getOrCreateState
    rw [h]
    exact setEntry_of_lookup_none m.state acq _ h
  refine ⟨hstate, ?_⟩
  rw [getAllHealth_fst, hstate]
  simp

theorem mem_segCandidate {a : PerformanceAnalyzer} {key label : String} {w : ℚ}
    {c : Candidate} (h : c ∈ segCandidate a key label w) :
    5 ≤ c.sampleSize ∧ c.weight = w ∧ c.segment = label := by
  unfold segCandidate at h
  cases hseg : getSegment a key with
  | none => rw [hseg] at h; cases h
  | some p =>
      obtain ⟨r, n⟩ := p
      rw [hseg] at h
      dsimp only at h
      split_ifs at h with h5
      · simp only [List.mem_singleton] at h
        subst h
        exact ⟨h5, rfl, rfl⟩
      · cases h

theorem mem_candidatesOf_elim {a : PerformanceAnalyzer} {acq : String}
    {f : ApprovalFilters} {c : Candidate} (h : c ∈ candidatesOf a acq f) :
    5 ≤ c.sampleSize ∧ (c.weight = 4 ∨ c.weight = 2 ∨ c.weight = 1) := by
  unfold candidatesOf at h
  simp only [List.mem_append] at h
  rcases h with ((((h | h) | h) | h) | h) | h
  · rcases hc : f.currency with _ | cu <;> rcases ht : f.cardType with _ | ct <;>
      rw [hc, ht] at h <;> first
      | cases h
      | exact ⟨(mem_segCandidate h).1, Or.inl (mem_segCandidate h).2.1⟩
  · rcases hc : f.currency with _ | cu <;> rw [hc] at h
    · cases h
    · exact ⟨(mem_segCandidate h).1, Or.inr (Or.inl (mem_segCandidate h).2.1)⟩
  · rcases ht : f.cardType with _ | ct <;> rw [ht] at h
    · cases h
    · exact ⟨(mem_segCandidate h).1, Or.inr (Or.inl (mem_segCandidate h).2.1)⟩
  · rcases hco : f.country with _ | co <;> rw [hco] at h
    · cases h
    · exact ⟨(mem_segCandidate h).1, Or.inr (Or.inl (mem_segCandidate h).2.1)⟩
  · rcases ha : f.amount with _ | amt <;> rw [ha] at h
    · cases h
    · exact ⟨(mem_segCandidate h).1, Or.inr (Or.inl (mem_segCandidate h).2.1)⟩
  · exact ⟨(mem_segCandidate h).1, Or.inr (Or.inr (mem_segCandidate h).2.1)⟩

theorem length_segCandidate (a : PerformanceAnalyzer) (key label : String)
    (w : ℚ) :
    (segCandidate a key label w).length =
      if 5 ≤ bucketTotal a key then 1 else 0 := by
  cases hl : lookupEntry a.segments key with
  | none => simp [segCandidate, getSegment, bucketTotal, hl]
  | some stats =>
      simp only [segCandidate, getSegment, bucketTotal, hl]
      by_cases h0 : stats.total = 0
      · simp [h0]
      · rw [if_neg h0]
        dsimp only
        by_cases h5 : 5 ≤ stats.total <;> simp [h5]

theorem segCandidate_eq_nil_iff (a : PerformanceAnalyzer) (key label : String)
    (w : ℚ) : segCandidate a key label w = [] ↔ bucketTotal a key < 5 := by
  rw [← List.length_eq_zero, length_segCandidate]
  split_ifs with h
  · exact iff_of_false (by simp) (by omega)
  · exact iff_of_true rfl (by omega)

theorem candidatesOf_eq_nil_iff (a : PerformanceAnalyzer) (acq : String)
    (f : ApprovalFilters) :
    candidatesOf a acq f = [] ↔ someBucketQualifiesB a acq f = false := by
  obtain ⟨fc, ft, fco, fa⟩ := f
  cases fc <;> cases ft <;> cases fco <;> cases fa <;>
    simp [candidatesOf, someBucketQualifiesB, combinedQualifiesB,
      singleDimQualifiesB, currencyQualifiesB, cardTypeQualifiesB,
      countryQualifiesB, amountRangeQualifiesB, baselineQualifiesB,
      segCandidate_eq_nil_iff, decide_eq_false_iff_not, not_le] <;>
    omega

theorem getApprovalRate_sampleSize_pos (a : PerformanceAnalyzer) (acq : String)
    (f : ApprovalFilters) (h : candidatesOf a acq f ≠ []) :
    0 < (getApprovalRate a acq f).sampleSize := by
  cases hcs : candidatesOf a acq f with
  | nil => exact absurd hcs h
  | cons c rest =>
      have hc5 : 5 ≤ c.sampleSize :=
        (mem_candidatesOf_elim (hcs ▸ List.mem_cons_self c rest)).1
      unfold getApprovalRate
      dsimp only
      rw [hcs]
      cases rest with
      | nil =>
          rw [if_neg (by simp), if_pos (by simp)]
          dsimp only
          simp only [List.headD_cons]
          omega
      | cons c2 rest2 =>
          rw [if_neg (by simp), if_neg (by simp)]
          dsimp only
          simp only [List.map_cons, List.sum_cons]
          omega

/-- C7 — `getApprovalRate` applies the minimum-sample threshold of 5 to every
contributing bucket (baseline included: every collected candidate has at
least 5 samples), and it returns the explicit no-data result — rate 0,
sample size 0, segment "none" — exactly when no applicable bucket at any
level reaches 5 samples. -/
theorem getApprovalRateMinSamples (a : PerformanceAnalyzer) (acq : String)
    (f : ApprovalFilters) :
    (∀ c ∈ candidatesOf a acq f, 5 ≤ c.sampleSize) ∧
    (someBucketQualifiesB a acq f = false ↔
      getApprovalRate a acq f = ⟨acq, 0, 0, "none"⟩) := by
  refine ⟨fun c hc => (mem_candidatesOf_elim hc).1, ?_, ?_⟩
  · intro hq
    have hnil : candidatesOf a acq f = [] :=
      (candidatesOf_eq_nil_iff a acq f).mpr hq
    unfold getApprovalRate
    dsimp only
    rw [hnil]
    simp
  · intro heq
    by_contra hq
    have hne : candidatesOf a acq f ≠ [] := by
      intro h0
      exact hq ((candidatesOf_eq_nil_iff a acq f).mp h0)
    have hpos := getApprovalRate_sampleSize_pos a acq f hne
    rw [heq] at hpos
    simp at hpos

theorem getApprovalRateMinSamples_witness :
    5 ≤ (⟨3/5, 5, "US", 2⟩ : Candidate).sampleSize ∧
    getApprovalRate emptyAnalyzer "A" countryOnlyFilters = ⟨"A", 0, 0, "none"⟩ :=
  ⟨((getApprovalRateMinSamples analyzerCountryOnly "A" countryOnlyFilters).1
      ⟨3/5, 5, "US", 2⟩ (by decide)),
   ((getApprovalRateMinSamples emptyAnalyzer "A" countryOnlyFilters).2.mp
      (by decide))⟩

theorem sum_weights_pos (a : PerformanceAnalyzer) (acq : String)
    (f : ApprovalFilters) (h : candidatesOf a acq f ≠ []) :
    0 < ((candidatesOf a acq f).map (fun c => c.weight)).sum := by
  cases hcs : candidatesOf a acq f with
  | nil => exact absurd hcs h
  | cons c rest =>
      have hcw := (mem_candidatesOf_elim (hcs ▸ List.mem_cons_self c rest)).2
      have hrest : 0 ≤ (rest.map (fun c => c.weight)).sum := by
        apply List.sum_nonneg
        intro x hx
        simp only [List.mem_map] at hx
        obtain ⟨d, hd, rfl⟩ := hx
        have hdw := (mem_candidatesOf_elim
          (c := d) (hcs ▸ List.mem_cons_of_mem c hd)).2
        rcases hdw with hw | hw | hw <;> rw [hw] <;> norm_num
      simp only [List.map_cons, List.sum_cons]
      rcases hcw with h4 | h2 | h1
      · rw [h4]; linarith
      · rw [h2]; linarith
      · rw [h1]; linarith

theorem combined_and_single_give_blend (a : PerformanceAnalyzer) (acq : String)
    (f : ApprovalFilters) (hcomb : combinedQualifiesB a acq f = true)
    (hsingle : singleDimQualifiesB a acq f = true) :
    2 ≤ (candidatesOf a acq f).length := by
  obtain ⟨fc, ft, fco, fa⟩ := f
  cases fc with
  | none => simp [combinedQualifiesB] at hcomb
  | some cu =>
  cases ft with
  | none => simp [combinedQualifiesB] at hcomb
  | some ct =>
  simp only [combinedQualifiesB, decide_eq_true_eq] at hcomb
  simp only [singleDimQualifiesB, Bool.or_eq_true] at hsingle
  simp only [candidatesOf, List.length_append, length_segCandidate, if_pos hcomb]
  rcases hsingle with ((h1 | h2) | h3) | h4
  · simp only [currencyQualifiesB, decide_eq_true_eq] at h1
    rw [if_pos h1]
    omega
  · simp only [cardTypeQualifiesB, decide_eq_true_eq] at h2
    rw [if_pos h2]
    omega
  · cases hco : fco with
    | none => simp [countryQualifiesB, hco] at h3
    | some co =>
        simp only [countryQualifiesB, hco, decide_eq_true_eq] at h3
        simp only [length_segCandidate]
        rw [if_pos h3]
        omega
  · cases ha : fa with
    | none => simp [amountRangeQualifiesB, ha] at h4
    | some amt =>
        simp only [amountRangeQualifiesB, ha, decide_eq_true_eq] at h4
        simp only [length_segCandidate]
        rw [if_pos h4]
        omega

/-- C3 (amended) — whenever the combined currency×cardType bucket and some
single-dimension bucket both reach 5 samples the blend branch runs (at least
two candidates), and whenever at least two buckets qualify the result is the
weighted blend: the returned rate times the total weight equals the
weighted sum of the candidate rates (weights 4 for combined, 2 for
single-dimension, 1 for baseline, as every candidate carries), and the
returned sample size is the sum of the candidates' sample sizes. -/
theorem getApprovalRateBlend (a : PerformanceAnalyzer) (acq : String)
    (f : ApprovalFilters) :
    (combinedQualifiesB a acq f = true → singleDimQualifiesB a acq f = true →
      2 ≤ (candidatesOf a acq f).length) ∧
    (2 ≤ (candidatesOf a acq f).length →
      (getApprovalRate a acq f).approvalRate *
          ((candidatesOf a acq f).map (fun c => c.weight)).sum =
        ((candidatesOf a acq f).map (fun c => c.rate * c.weight)).sum ∧
      (getApprovalRate a acq f).sampleSize =
        ((candidatesOf a acq f).map (fun c => c.sampleSize)).sum) ∧
    (∀ c ∈ candidatesOf a acq f,
      c.weight = 4 ∨ c.weight = 2 ∨ c.weight = 1) := by
  refine ⟨combined_and_single_give_blend a acq f, ?_,
    fun c hc => (mem_candidatesOf_elim hc).2⟩
  intro h2
  have hne : candidatesOf a acq f ≠ [] := by
    intro h0
    rw [h0] at h2
    simp at h2
  have hwpos := sum_weights_pos a acq f hne
  unfold getApprovalRate
  dsimp only
  rw [if_neg (by omega), if_neg (by omega)]
  dsimp only
  exact ⟨div_mul_cancel₀ _ (ne_of_gt hwpos), rfl⟩

/-- C3 (counterexample) — with only a country filter, a five-sample country
bucket plus the baseline make two qualifying candidates, so the blend branch
runs (observably: the reported sample size is 10, the sum of both buckets)
even though the combined currency×cardType bucket does not qualify. -/
theorem blendWithoutCombined :
    2 ≤ (candidatesOf analyzerCountryOnly "A" countryOnlyFilters).length ∧
    combinedQualifiesB analyzerCountryOnly "A" countryOnlyFilters = false ∧
    singleDimQualifiesB analyzerCountryOnly "A" countryOnlyFilters = true ∧
    (getApprovalRate analyzerCountryOnly "A" countryOnlyFilters).sampleSize = 10 := by
  refine ⟨by decide, by decide, by decide, by decide⟩

theorem getApprovalRateBlend_witness :
    2 ≤ (candidatesOf analyzerFire "B" (filtersOf reqCost)).length ∧
    (getApprovalRate analyzerFire "B" (filtersOf reqCost)).sampleSize =
      ((candidatesOf analyzerFire "B" (filtersOf reqCost)).map
        (fun c => c.sampleSize)).sum := by
  have h := getApprovalRateBlend analyzerFire "B" (filtersOf reqCost)
  have h2 := h.1 (by decide) (by decide)
  exact ⟨h2, (h.2.1 h2).2⟩

theorem getHealthInsertsDefault_witness :
    (getHealth emptyMonitor "Acquirer A" "t0").2.state =
      [("Acquirer A", defaultState "t0")] ∧
    ((getAllHealth (getHealth emptyMonitor "Acquirer A" "t0").2 "t1").1.map
      (fun p => p.1)) = ["Acquirer A"] :=
  getHealthInsertsDefault emptyMonitor "Acquirer A" "t0" "t1" rfl

theorem mem_eligibleScores {a : PerformanceAnalyzer} {hp : String → HealthStatus}
    {req : PaymentRequest} {s : AcquirerScore}
    (h : s ∈ eligibleScores a hp req) :
    ∃ acq ∈ acquirers, acq.enabled = true ∧
      (hp acq.name).status ≠ Status.down ∧ s = scoreOf a hp req acq := by
  unfold eligibleScores at h
  rw [List.mem_filterMap] at h
  obtain ⟨acq, hmem, hf⟩ := h
  by_cases he : acq.enabled = true
  · rw [if_pos he] at hf
    by_cases hd : (hp acq.name).status = Status.down
    · rw [if_pos hd] at hf
      cases hf
    · rw [if_neg hd] at hf
      injection hf with hf
      exact ⟨acq, hmem, he, hd, hf.symm⟩
  · rw [if_neg he] at hf
    cases hf

theorem mem_decisionScores {a : PerformanceAnalyzer} {hp : String → HealthStatus}
    {req : PaymentRequest} {s : AcquirerScore}
    (hs : s ∈ decisionScores a hp req) : s ∈ eligibleScores a hp req := by
  unfold decisionScores at hs
  exact (mem_insertionSort_iff leTotalDesc).mp hs

theorem route_of_empty (a : PerformanceAnalyzer) (hp : String → HealthStatus)
    (req : PaymentRequest) (h : eligibleScores a hp req = []) :
    route a hp req =
      ⟨"NONE", [], noAcquirersMsg, req.optimizationMode.getD Mode.balanced, []⟩ := by
  unfold route
  rw [if_pos (by simp [h])]

theorem route_scores_sub (a : PerformanceAnalyzer) (hp : String → HealthStatus)
    (req : PaymentRequest) (s : AcquirerScore)
    (hs : s ∈ (route a hp req).scores) : s ∈ eligibleScores a hp req := by
  unfold route at hs
  by_cases h1 : (eligibleScores a hp req).isEmpty = true
  · rw [if_pos h1] at hs
    cases hs
  · rw [if_neg h1] at hs
    by_cases h2 : req.optimizationMode.getD Mode.balanced = Mode.cost_conscious ∧
        2 ≤ (eligibleScores a hp req).length
    · rw [if_pos h2] at hs
      dsimp only at hs
      by_cases h3 : ((decisionScores a hp req).filter
          (fun s => s.healthStatus == Status.healthy)).isEmpty = true
      · rw [if_pos h3] at hs
        exact mem_decisionScores ((mem_insertionSort_iff leApprDesc).mp hs)
      · rw [if_neg h3] at hs
        exact mem_decisionScores hs
    · rw [if_neg h2] at hs
      dsimp only at hs
      exact mem_decisionScores hs

theorem approvalPool_subset (l : List AcquirerScore) :
    ∀ s ∈ approvalPool l, s ∈ l := by
  intro s hs
  unfold approvalPool at hs
  dsimp only at hs
  split_ifs at hs
  · exact hs
  · exact List.mem_of_mem_filter hs

theorem approvalPool_ne_nil (l : List AcquirerScore) (h : l ≠ []) :
    approvalPool l ≠ [] := by
  unfold approvalPool
  dsimp only
  split_ifs with hf
  · exact h
  · intro hnil
    rw [hnil] at hf
    simp at hf

theorem route_selected_mem (a : PerformanceAnalyzer) (hp : String → HealthStatus)
    (req : PaymentRequest) (h : eligibleScores a hp req ≠ []) :
    ∃ s ∈ (route a hp req).scores,
      s.acquirer = (route a hp req).selectedAcquirer := by
  have hde : decisionScores a hp req ≠ [] := insertionSort_ne_nil leTotalDesc h
  have htop : (decisionScores a hp req).headD dummyScore ∈ decisionScores a hp req :=
    headD_mem _ _ hde
  have hbest : bestApprovalOf (decisionScores a hp req) ∈ decisionScores a hp req := by
    apply approvalPool_subset
    apply (mem_insertionSort_iff leApprDesc).mp
    exact headD_mem _ _ (insertionSort_ne_nil leApprDesc (approvalPool_ne_nil _ hde))
  simp only [route]
  rw [if_neg (by simpa using h)]
  split_ifs with hcost hov hhe hhe
  · exact ⟨bestApprovalOf (decisionScores a hp req),
      (mem_insertionSort_iff leApprDesc).mpr hbest, rfl⟩
  · exact ⟨bestApprovalOf (decisionScores a hp req), hbest, rfl⟩
  · exact ⟨(decisionScores a hp req).headD dummyScore,
      (mem_insertionSort_iff leApprDesc).mpr htop, rfl⟩
  · exact ⟨(decisionScores a hp req).headD dummyScore, htop, rfl⟩
  · exact ⟨(decisionScores a hp req).headD dummyScore, htop, rfl⟩

/-- C1 — every score row the engine returns belongs to an enabled configured
acquirer whose provider status is not `down`, and the selected acquirer is
either the "NONE" sentinel or one of those rows; so a down or disabled
acquirer never appears among the scores nor as the selection. -/
theorem routeExcludesDown (a : PerformanceAnalyzer) (hp : String → HealthStatus)
    (req : PaymentRequest) :
    (∀ s ∈ (route a hp req).scores,
      (hp s.acquirer).status ≠ Status.down ∧
      ∃ c ∈ acquirers, c.name = s.acquirer ∧ c.enabled = true) ∧
    ((route a hp req).selectedAcquirer = "NONE" ∨
      ∃ s ∈ (route a hp req).scores,
        s.acquirer = (route a hp req).selectedAcquirer) := by
  constructor
  · intro s hs
    obtain ⟨acq, hmem, he, hd, rfl⟩ :=
      mem_eligibleScores (route_scores_sub a hp req s hs)
    exact ⟨hd, acq, hmem, rfl, he⟩
  · by_cases h : eligibleScores a hp req = []
    · left
      rw [route_of_empty a hp req h]
    · right
      exact route_selected_mem a hp req h

theorem routeExcludesDown_witness :
    (hpOnlyB "Acquirer B").status ≠ Status.down ∧
    ∃ c ∈ acquirers, c.name = "Acquirer B" ∧ c.enabled = true :=
  (routeExcludesDown emptyAnalyzer hpOnlyB reqBalanced).1
    ⟨"Acquirer B", 1/4, 0, 1, 0, 0, Status.healthy, 31/10⟩ (by decide)

/-- C2 — when every configured acquirer is disabled or down, `route` returns
exactly the sentinel decision: selected "NONE", no scores, the no-acquirers
justification, the request's mode, and an empty fallback list.  (`route` is a
total function, so it never throws.) -/
theorem routeSentinel (a : PerformanceAnalyzer) (hp : String → HealthStatus)
    (req : PaymentRequest)
    (h : ∀ c ∈ acquirers, c.enabled = false ∨ (hp c.name).status = Status.down) :
    route a hp req =
      ⟨"NONE", [], noAcquirersMsg, req.optimizationMode.getD Mode.balanced, []⟩ := by
  have helig : eligibleScores a hp req = [] := by
    unfold eligibleScores
    rw [List.filterMap_eq_nil_iff]
    intro acq hmem
    by_cases he : acq.enabled = true
    · rcases h acq hmem with he' | hd
      · rw [he] at he'
        cases he'
      · rw [if_pos he, if_pos hd]
    · rw [if_neg he]
  exact route_of_empty a hp req helig

theorem routeSentinel_witness :
    route emptyAnalyzer hpAllDown reqBalanced =
      ⟨"NONE", [], noAcquirersMsg, Mode.balanced, []⟩ :=
  routeSentinel emptyAnalyzer hpAllDown reqBalanced (by decide)

/-- C4 — in cost-conscious mode with at least two eligible acquirers, the
selection is the best-approval acquirer exactly when the override condition
fires (different acquirer than the cheapest, approval more than 0.05 higher)
and the top-scored acquirer otherwise; `cheapestOf` really attains the
minimum take rate among the eligible scores and `bestApprovalOf` the maximum
approval rate over the healthy-preferred pool, which is the healthy subset
when any eligible acquirer is healthy and all eligible scores otherwise. -/
theorem costConsciousOverride (a : PerformanceAnalyzer)
    (hp : String → HealthStatus) (req : PaymentRequest)
    (hmode : req.optimizationMode = some Mode.cost_conscious)
    (hlen : 2 ≤ (eligibleScores a hp req).length) :
    ((route a hp req).selectedAcquirer =
      (if overrideFires (decisionScores a hp req)
        then bestApprovalOf (decisionScores a hp req)
        else (decisionScores a hp req).headD dummyScore).acquirer) ∧
    cheapestOf (decisionScores a hp req) ∈ decisionScores a hp req ∧
    (∀ s ∈ decisionScores a hp req,
      (cheapestOf (decisionScores a hp req)).takeRate ≤ s.takeRate) ∧
    bestApprovalOf (decisionScores a hp req) ∈
      approvalPool (decisionScores a hp req) ∧
    (∀ s ∈ approvalPool (decisionScores a hp req),
      s.approvalRate ≤ (bestApprovalOf (decisionScores a hp req)).approvalRate) ∧
    ((∃ s ∈ decisionScores a hp req, s.healthStatus = Status.healthy) →
      approvalPool (decisionScores a hp req) =
        (decisionScores a hp req).filter
          (fun s => s.healthStatus == Status.healthy)) ∧
    ((∀ s ∈ decisionScores a hp req, s.healthStatus ≠ Status.healthy) →
      approvalPool (decisionScores a hp req) = decisionScores a hp req) := by
  have hne : eligibleScores a hp req ≠ [] := by
    intro h0
    rw [h0] at hlen
    simp at hlen
  have hde : decisionScores a hp req ≠ [] := insertionSort_ne_nil leTotalDesc hne
  refine ⟨?_, ?_, ?_, ?_, ?_, ?_, ?_⟩
  · simp only [route]
    rw [if_neg (by simpa using hne), hmode]
    rw [if_pos ⟨rfl, hlen⟩]
  · apply (mem_insertionSort_iff leTakeAsc).mp
    exact headD_mem _ _ (insertionSort_ne_nil leTakeAsc hde)
  · exact fun s hs => headD_insertionSort_rel leTakeAsc _ dummyScore s hs
  · apply (mem_insertionSort_iff leApprDesc).mp
    exact headD_mem _ _ (insertionSort_ne_nil leApprDesc (approvalPool_ne_nil _ hde))
  · exact fun s hs => headD_insertionSort_rel leApprDesc _ dummyScore s hs
  · intro ⟨s, hsmem, hstat⟩
    unfold approvalPool
    dsimp only
    rw [if_neg]
    intro hemp
    rw [List.isEmpty_iff] at hemp
    have : s ∈ (decisionScores a hp req).filter
        (fun s => s.healthStatus == Status.healthy) :=
      List.mem_filter.mpr ⟨hsmem, by simp [hstat]⟩
    rw [hemp] at this
    cases this
  · intro hnone
    unfold approvalPool
    dsimp only
    rw [if_pos]
    rw [List.isEmpty_iff, List.filter_eq_nil_iff]
    intro s hs
    simpa using hnone s hs

theorem costConsciousOverride_witness :
    overrideFires (decisionScores analyzerFire hpAllHealthy reqCost) ∧
    (route analyzerFire hpAllHealthy reqCost).selectedAcquirer =
      (bestApprovalOf (decisionScores analyzerFire hpAllHealthy reqCost)).acquirer := by
  have h := costConsciousOverride analyzerFire hpAllHealthy reqCost rfl (by decide)
  have hf : overrideFires (decisionScores analyzerFire hpAllHealthy reqCost) := by
    decide
  exact ⟨hf, by rw [h.1, if_pos hf]⟩

/-- C5 (code evaluated at the failing input) — with all three acquirers
degraded and a cost-conscious request, the returned score list comes back
ordered by approval rate (B, C, A) rather than by total score: the second
row's total score exceeds the first's, because the source's
`(healthyScores.length > 0 ? healthyScores : scores).sort(...)` re-sorts
the `scores` array in place when no eligible acquirer is healthy. -/
theorem routeScoresUnsorted :
    ((route analyzerClose (hpOfMonitor monitorAllDegraded) reqCost).scores.map
      (fun s => s.acquirer)) = ["Acquirer B", "Acquirer C", "Acquirer A"] ∧
    ((route analyzerClose (hpOfMonitor monitorAllDegraded) reqCost).scores.map
      (fun s => s.totalScore)) = [21/50, 82/155, 153/1550] ∧
    ¬ List.Pairwise (fun x y : ℚ => y ≤ x)
      ((route analyzerClose (hpOfMonitor monitorAllDegraded) reqCost).scores.map
        (fun s => s.totalScore)) :=
  ⟨by decide, by decide, by decide⟩

theorem mem_mkFallbackEntries {l : List (String × ℚ)} {e : FallbackEntry}
    (h : e ∈ mkFallbackEntries l) :
    ∃ p ∈ l, e.acquirer = p.1 ∧ e.expectedApprovalRate = p.2 := by
  cases l with
  | nil => cases h
  | cons c rest =>
      rcases List.mem_cons.mp h with rfl | hmem
      · exact ⟨c, List.mem_cons_self _ _, rfl, rfl⟩
      · rw [List.mem_map] at hmem
        obtain ⟨p, hp, rfl⟩ := hmem
        exact ⟨p, List.mem_cons_of_mem _ hp, rfl, rfl⟩

theorem pairwise_mkFallbackEntries {l : List (String × ℚ)}
    (h : List.Pairwise (fun p q : String × ℚ => q.2 ≤ p.2) l) :
    List.Pairwise
      (fun x y : FallbackEntry => y.expectedApprovalRate ≤ x.expectedApprovalRate)
      (mkFallbackEntries l) := by
  cases l with
  | nil => exact List.Pairwise.nil
  | cons c rest =>
      rw [List.pairwise_cons] at h
      refine List.Pairwise.cons ?_ ?_
      · intro e he
        rw [List.mem_map] at he
        obtain ⟨p, hp, rfl⟩ := he
        exact h.1 p hp
      · exact List.pairwise_map.mpr h.2

theorem length_mkFallbackEntries (l : List (String × ℚ)) :
    (mkFallbackEntries l).length = l.length := by
  cases l <;> simp [mkFallbackEntries]

theorem mem_fallbackCandidates_elim {a : PerformanceAnalyzer}
    {avail : String → Bool} {req : PaymentRequest} {primary : String}
    {p : String × ℚ} (h : p ∈ fallbackCandidates a avail req primary) :
    p.1 ≠ primary ∧ avail p.1 = true ∧
    p.2 = (resolvePerformance a p.1 (filtersOf req)).approvalRate ∧
    (1 : ℚ)/2 ≤ p.2 := by
  unfold fallbackCandidates at h
  rw [List.mem_filterMap] at h
  obtain ⟨acq, hmem, hf⟩ := h
  by_cases he : acq.enabled = true
  · rw [if_pos he] at hf
    by_cases hp : acq.name = primary
    · rw [if_pos hp] at hf
      cases hf
    · rw [if_neg hp] at hf
      by_cases hav : avail acq.name = true
      · rw [if_pos hav] at hf
        dsimp only at hf
        by_cases hr : (1 : ℚ)/2 ≤
            (resolvePerformance a acq.name (filtersOf req)).approvalRate
        · rw [if_pos hr] at hf
          injection hf with hf
          subst hf
          exact ⟨hp, hav, rfl, hr⟩
        · rw [if_neg hr] at hf
          cases hf
      · rw [if_neg hav] at hf
        cases hf
  · rw [if_neg he] at hf
    cases hf

theorem isAvailable_statusOf (m : HealthMonitor) (n : String)
    (h : isAvailable m n = true) : statusOf m n ≠ Status.down := by
  unfold isAvailable at h
  unfold statusOf
  cases hl : lookupEntry m.state n with
  | none => simp
  | some s =>
      rw [hl] at h
      simpa [bne_iff_ne] using h

/-- C8 — every fallback entry names a non-primary acquirer whose monitor
status is not down, carries exactly the resolved approval rate for the
request's shape, which is at least 0.50; the list is sorted by expected
approval rate descending and has at most three entries. -/
theorem getSequenceContract (a : PerformanceAnalyzer) (m : HealthMonitor)
    (req : PaymentRequest) (primary : String) :
    (∀ e ∈ getSequence a (isAvailable m) req primary,
      e.acquirer ≠ primary ∧ statusOf m e.acquirer ≠ Status.down ∧
      e.expectedApprovalRate =
        (resolvePerformance a e.acquirer (filtersOf req)).approvalRate ∧
      (1 : ℚ)/2 ≤ e.expectedApprovalRate) ∧
    List.Pairwise
      (fun x y : FallbackEntry => y.expectedApprovalRate ≤ x.expectedApprovalRate)
      (getSequence a (isAvailable m) req primary) ∧
    (getSequence a (isAvailable m) req primary).length ≤ 3 := by
  refine ⟨?_, ?_, ?_⟩
  · intro e he
    unfold getSequence at he
    dsimp only at he
    obtain ⟨p, hp, ha1, ha2⟩ := mem_mkFallbackEntries he
    have hpc : p ∈ fallbackCandidates a (isAvailable m) req primary :=
      (mem_insertionSort_iff leRateDesc).mp (List.take_subset 3 _ hp)
    obtain ⟨hne, hav, hrate, hge⟩ := mem_fallbackCandidates_elim hpc
    rw [ha1, ha2]
    exact ⟨hne, isAvailable_statusOf m p.1 hav, hrate, hge⟩
  · unfold getSequence
    dsimp only
    apply pairwise_mkFallbackEntries
    exact List.Pairwise.sublist (List.take_sublist 3 _)
      (List.sorted_insertionSort leRateDesc _)
  · unfold getSequence
    dsimp only
    rw [length_mkFallbackEntries, List.length_take]
    exact min_le_left _ _

theorem getSequenceContract_witness :
    ("Acquirer B" : String) ≠ "Acquirer A" ∧
    statusOf emptyMonitor "Acquirer B" ≠ Status.down ∧
    (9 : ℚ)/10 =
      (resolvePerformance analyzerFire "Acquirer B" (filtersOf reqBalanced)).approvalRate ∧
    (1 : ℚ)/2 ≤ (9 : ℚ)/10 :=
  (getSequenceContract analyzerFire emptyMonitor reqBalanced "Acquirer A").1
    ⟨"Acquirer B", 9/10,
     "Secondary: next highest approval rate (90%) for this transaction type"⟩
    (by decide)

end Atlas
